import Mathlib

/-!
Verification of the chat-streaming core of the compliance-analyzer frontend.

The development shallowly embeds two components:

* the stream transport parser `streamChat` from
  `src/frontend/src/api/client.ts` — a byte stream is decoded with a
  streaming UTF-8 decoder, buffered text is split on newlines, each complete
  line is routed through `event:` / `data:` handling, and payloads that parse
  as JSON are dispatched to one of five typed callbacks;

* the conversation state machine `useChat` from
  `src/frontend/src/hooks/useChat.ts` together with the submit guard
  `handleSend` from `src/frontend/src/components/ChatPanel.tsx`.

Text is modelled as `List Char`, raw bytes as `List Nat` (each < 256 in
well-formed input).
-/

namespace ComplianceAnalyzer

/-- Whitespace as recognised by JavaScript `String.prototype.trim` (restricted
to the ASCII whitespace characters, the only ones occurring in the repository's
event framing). -/
def isWsChar (c : Char) : Bool :=
  c = ' ' || c = '\t' || c = '\n' || c = '\r' || c = '\x0b' || c = '\x0c'

/-- JavaScript `s.trim()`: remove whitespace from both ends. -/
def trimL (l : List Char) : List Char :=
  ((l.dropWhile isWsChar).reverse.dropWhile isWsChar).reverse

/-- JavaScript `s.split('\n')`: split a string on every newline.  Always
returns at least one segment; `"a\n"` yields `["a", ""]`, `""` yields
`[""]`, matching the JavaScript behaviour used by `streamChat`. -/
def splitNl : List Char → List (List Char)
  | [] => [[]]
  | c :: cs =>
    if c = '\n' then [] :: splitNl cs
    else
      match splitNl cs with
      | [] => [[c]]
      | l :: ls => (c :: l) :: ls

/-- Prepend a carried-over text to the first segment of a split result;
used to describe how `splitNl` acts on concatenations. -/
def consHead (pre : List Char) : List (List Char) → List (List Char)
  | [] => [pre]
  | x :: xs => (pre ++ x) :: xs

/-! ### JSON values and `JSON.parse`

`streamChat` parses each `data:` payload with the platform `JSON.parse`.  We
model JSON values and a recursive-descent parser for them.  Numbers are kept
as their raw character spans (validated against the JSON number grammar);
none of the repository's payload fields are numeric, so no arithmetic on
numbers is ever performed. -/

inductive Json where
  | null : Json
  | bool (b : Bool) : Json
  | num (raw : List Char) : Json
  | str (s : List Char) : Json
  | arr (elems : List Json) : Json
  | obj (fields : List (List Char × Json)) : Json
deriving Repr, BEq, Inhabited

/-- JSON insignificant whitespace. -/
def isJsonWs (c : Char) : Bool :=
  c = ' ' || c = '\t' || c = '\n' || c = '\r'

/-- Skip insignificant whitespace. -/
def skipJsonWs (l : List Char) : List Char :=
  l.dropWhile isJsonWs

/-- Value of a hexadecimal digit (either case). -/
def hexVal (c : Char) : Option Nat :=
  if c.isDigit then
    some (c.toNat - '0'.toNat)
  else if 'a' ≤ c.toLower && c.toLower ≤ 'f' then
    some (c.toLower.toNat + 10 - 'a'.toNat)
  else
    none

/-- Single-character JSON string escapes. -/
def unescapeChar (c : Char) : Option Char :=
  if c = '"' then some '"'
  else if c = '\\' then some '\\'
  else if c = '/' then some '/'
  else if c = 'b' then some '\x08'
  else if c = 'f' then some '\x0c'
  else if c = 'n' then some '\n'
  else if c = 'r' then some '\r'
  else if c = 't' then some '\t'
  else none

/-- Parse the body of a JSON string after the opening quote, returning the
decoded characters and the remaining input after the closing quote. -/
def parseStringBody : Nat → List Char → Option (List Char × List Char)
  | 0, _ => none
  | _ + 1, [] => none
  | fuel + 1, c :: cs =>
    if c = '"' then some ([], cs)
    else if c = '\\' then
      match cs with
      | [] => none
      | e :: cs' =>
        if e = 'u' then
          match cs' with
          | h1 :: h2 :: h3 :: h4 :: cs'' =>
            match hexVal h1, hexVal h2, hexVal h3, hexVal h4 with
            | some v1, some v2, some v3, some v4 =>
              match parseStringBody fuel cs'' with
              | some (rest, rem) =>
                some (Char.ofNat (((v1 * 16 + v2) * 16 + v3) * 16 + v4) :: rest, rem)
              | none => none
            | _, _, _, _ => none
          | _ => none
        else
          match unescapeChar e with
          | some d =>
            match parseStringBody fuel cs' with
            | some (rest, rem) => some (d :: rest, rem)
            | none => none
          | none => none
    else
      match parseStringBody fuel cs with
      | some (rest, rem) => some (c :: rest, rem)
      | none => none

/-- Parse a run of decimal digits (at least one). -/
def parseDigits (l : List Char) : Option (List Char × List Char) :=
  let ds := l.takeWhile Char.isDigit
  if ds = [] then none else some (ds, l.dropWhile Char.isDigit)

/-- Parse a JSON number token, keeping its raw characters. -/
def parseNumberRaw (l : List Char) : Option (List Char × List Char) :=
  let (sign, l1) :=
    match l with
    | '-' :: rest => (['-'], rest)
    | _ => (([] : List Char), l)
  match parseDigits l1 with
  | none => none
  | some (intPart, l2) =>
    let (fracPart, l3) :=
      match l2 with
      | '.' :: rest =>
        match parseDigits rest with
        | some (ds, rem) => ('.' :: ds, rem)
        | none => (([] : List Char), l2)
      | _ => (([] : List Char), l2)
    let (expPart, l4) :=
      match l3 with
      | e :: rest =>
        if e = 'e' || e = 'E' then
          let (es, rest') :=
            match rest with
            | '+' :: r => ([e, '+'], r)
            | '-' :: r => ([e, '-'], r)
            | _ => ([e], rest)
          match parseDigits rest' with
          | some (ds, rem) => (es ++ ds, rem)
          | none => (([] : List Char), l3)
        else (([] : List Char), l3)
      | _ => (([] : List Char), l3)
    some (sign ++ intPart ++ fracPart ++ expPart, l4)

mutual

/-- Parse one JSON value, returning it and the remaining input. -/
def parseJsonVal : Nat → List Char → Option (Json × List Char)
  | 0, _ => none
  | fuel + 1, input =>
    match skipJsonWs input with
    | [] => none
    | c :: cs =>
      if c = '"' then
        match parseStringBody (fuel + 1) cs with
        | some (s, rem) => some (.str s, rem)
        | none => none
      else if c = '[' then
        match skipJsonWs cs with
        | ']' :: rem => some (.arr [], rem)
        | _ =>
          match parseJsonElems fuel cs with
          | some (es, rem) => some (.arr es, rem)
          | none => none
      else if c = '\x7b' then
        match skipJsonWs cs with
        | '\x7d' :: rem => some (.obj [], rem)
        | _ =>
          match parseJsonFields fuel cs with
          | some (fs, rem) => some (.obj fs, rem)
          | none => none
      else if c = 't' then
        match cs with
        | 'r' :: 'u' :: 'e' :: rem => some (.bool true, rem)
        | _ => none
      else if c = 'f' then
        match cs with
        | 'a' :: 'l' :: 's' :: 'e' :: rem => some (.bool false, rem)
        | _ => none
      else if c = 'n' then
        match cs with
        | 'u' :: 'l' :: 'l' :: rem => some (.null, rem)
        | _ => none
      else
        match parseNumberRaw (c :: cs) with
        | some (raw, rem) => some (.num raw, rem)
        | none => none

/-- Parse a non-empty comma-separated list of array elements, up to and
including the closing bracket. -/
def parseJsonElems : Nat → List Char → Option (List Json × List Char)
  | 0, _ => none
  | fuel + 1, input =>
    match parseJsonVal fuel input with
    | none => none
    | some (v, rem) =>
      match skipJsonWs rem with
      | ',' :: rem' =>
        match parseJsonElems fuel rem' with
        | some (vs, rem'') => some (v :: vs, rem'')
        | none => none
      | ']' :: rem' => some ([v], rem')
      | _ => none

/-- Parse a non-empty comma-separated list of object members, up to and
including the closing brace. -/
def parseJsonFields : Nat → List Char → Option (List (List Char × Json) × List Char)
  | 0, _ => none
  | fuel + 1, input =>
    match skipJsonWs input with
    | '"' :: cs =>
      match parseStringBody (fuel + 1) cs with
      | none => none
      | some (k, rem) =>
        match skipJsonWs rem with
        | ':' :: rem' =>
          match parseJsonVal fuel rem' with
          | none => none
          | some (v, rem'') =>
            match skipJsonWs rem'' with
            | ',' :: rem3 =>
              match parseJsonFields fuel rem3 with
              | some (fs, rem4) => some ((k, v) :: fs, rem4)
              | none => none
            | '\x7d' :: rem3 => some ([(k, v)], rem3)
            | _ => none
        | _ => none
    | _ => none

end

/-- Model of `JSON.parse`: parse a complete JSON document, rejecting
trailing garbage.  `none` models a thrown `SyntaxError`. -/
def jsonParse (l : List Char) : Option Json :=
  match parseJsonVal (2 * l.length + 8) l with
  | some (v, rest) => if skipJsonWs rest = [] then some v else none
  | none => none

/-- Model of JavaScript property access `data.field` on a parsed JSON value:
`none` models `undefined`. -/
def Json.getField : Json → List Char → Option Json
  | .obj fields, k => (fields.find? (fun f => f.1 = k)).map (·.2)
  | _, _ => none

/-! ### The stream transport parser (`streamChat`, client.ts lines 114–157)

The callbacks of `StreamCallbacks` are recorded as a trace.  A callback
argument is the JSON field the source reads (`data.message`, `data.token`,
…), which may be absent (`none`, modelling `undefined`). -/

/-- One dispatched callback of `StreamCallbacks`, with the arguments the
source passes (`data.message`, `data.requirements` / `data.compliance_results`,
`data.token`, nothing, `data.error`). -/
inductive SseCallback where
  | onStatus (message : Option Json) : SseCallback
  | onRequirements (requirements : Option Json) (complianceResults : Option Json) : SseCallback
  | onToken (token : Option Json) : SseCallback
  | onDone : SseCallback
  | onError (error : Option Json) : SseCallback
deriving Repr, BEq

/-- The `switch (currentEvent)` of `streamChat`: which callbacks (none or
exactly one) a successfully parsed data payload is dispatched to. -/
def dispatchEvent (currentEvent : List Char) (data : Json) : List SseCallback :=
  if currentEvent = "status".toList then
    [.onStatus (data.getField "message".toList)]
  else if currentEvent = "requirements".toList then
    [.onRequirements (data.getField "requirements".toList)
      (data.getField "compliance_results".toList)]
  else if currentEvent = "token".toList then
    [.onToken (data.getField "token".toList)]
  else if currentEvent = "done".toList then
    [.onDone]
  else if currentEvent = "error".toList then
    [.onError (data.getField "error".toList)]
  else []

/-- Whether an event name is one of the five recognised by the `switch`. -/
def recognizedEvent (currentEvent : List Char) : Bool :=
  currentEvent = "status".toList || currentEvent = "requirements".toList ||
  currentEvent = "token".toList || currentEvent = "done".toList ||
  currentEvent = "error".toList

/-- The per-line state of the read loop: the current event name and the trace
of callbacks dispatched so far. -/
structure LineState where
  currentEvent : List Char
  out : List SseCallback
deriving Repr, BEq

/-- The body of `for (const line of lines)` in `streamChat`: an `event:` line
updates the current event name; a `data:` line with a non-empty trimmed
payload is JSON-parsed and dispatched; a payload that fails to parse is
caught (logged) and skipped; every other line is ignored. -/
def handleLine (st : LineState) (line : List Char) : LineState :=
  if ("event:".toList).isPrefixOf line then
    { st with currentEvent := trimL (line.drop 6) }
  else if ("data:".toList).isPrefixOf line then
    let dataStr := trimL (line.drop 5)
    if dataStr = [] then st
    else
      match jsonParse dataStr with
      | some data => { st with out := st.out ++ dispatchEvent st.currentEvent data }
      | none => st
  else st

/-! ### Streaming UTF-8 decoding (`TextDecoder` with `stream: true`)

`TextDecoder.decode(value, { stream: true })` is a byte automaton that
carries the prefix of an incomplete multi-byte sequence across calls.  The
state is the number of continuation bytes still needed and the code point
bits accumulated so far.  On well-formed UTF-8 (the domain of the spec's
chunk-invariance property) this agrees with the platform decoder exactly;
malformed bytes yield U+FFFD replacement characters. -/

/-- Decoder state: `needed` continuation bytes outstanding, `acc` the code
point accumulated so far.  `needed = 0` means no sequence is in progress. -/
structure Utf8State where
  needed : Nat
  acc : Nat
deriving Repr, BEq

/-- The replacement character emitted for malformed input. -/
def replacementChar : Char := '�'

/-- Feed one byte to the decoder with no sequence in progress. -/
def utf8Start (b : Nat) : Utf8State × List Char :=
  if b < 0x80 then (⟨0, 0⟩, [Char.ofNat b])
  else if 0xC2 ≤ b && b ≤ 0xDF then (⟨1, b % 32⟩, [])
  else if 0xE0 ≤ b && b ≤ 0xEF then (⟨2, b % 16⟩, [])
  else if 0xF0 ≤ b && b ≤ 0xF4 then (⟨3, b % 8⟩, [])
  else (⟨0, 0⟩, [replacementChar])

/-- Feed one byte to the decoder: either extend the sequence in progress or
start afresh; a byte that is not a valid continuation emits U+FFFD and is
then reprocessed as a sequence start. -/
def utf8Feed (s : Utf8State) (b : Nat) : Utf8State × List Char :=
  if s.needed = 0 then utf8Start b
  else if 0x80 ≤ b && b ≤ 0xBF then
    let acc' := s.acc * 64 + b % 64
    if s.needed = 1 then (⟨0, 0⟩, [Char.ofNat acc'])
    else (⟨s.needed - 1, acc'⟩, [])
  else
    let r := utf8Start b
    (r.1, replacementChar :: r.2)

/-- Fold step threading the decoder state and accumulating decoded text. -/
def utf8Step (acc : List Char × Utf8State) (b : Nat) : List Char × Utf8State :=
  let r := utf8Feed acc.2 b
  (acc.1 ++ r.2, r.1)

/-- `decoder.decode(value, { stream: true })`: decode a chunk of bytes,
returning the decoded text and the decoder state carried to the next call. -/
def utf8DecodePush (s : Utf8State) (bytes : List Nat) : List Char × Utf8State :=
  bytes.foldl utf8Step ([], s)

/-- The whole state of `streamChat`'s read loop: decoder carry, the
incomplete-line text buffer, the current event name and the callback trace. -/
structure SseState where
  dec : Utf8State
  buffer : List Char
  currentEvent : List Char
  out : List SseCallback
deriving Repr, BEq

/-- The body of `while (true)` in `streamChat` for one received chunk:
decode the bytes, append to the text buffer, split on newlines, keep the
final (possibly incomplete) segment as the new buffer and route every
complete line through `handleLine`. -/
def readChunk (st : SseState) (chunk : List Nat) : SseState :=
  let d := utf8DecodePush st.dec chunk
  let buf := st.buffer ++ d.1
  let lines := splitNl buf
  let ls := lines.dropLast.foldl handleLine ⟨st.currentEvent, st.out⟩
  { dec := d.2, buffer := lines.getLastD [], currentEvent := ls.currentEvent,
    out := ls.out }

/-- The loop state at entry: `currentEvent = ''`, `buffer = ''`, fresh
decoder, nothing dispatched. -/
def initSseState : SseState := ⟨⟨0, 0⟩, [], [], []⟩

/-- Run `streamChat`'s read loop over a given chunking of the response body
(the reader yields the chunks in order, then reports completion). -/
def streamChatRun (chunks : List (List Nat)) : SseState :=
  chunks.foldl readChunk initSseState

/-! ### The conversation state machine (`useChat`, useChat.ts)

The hook's reactive state variables and the `contentRef` accumulator become
the fields of `ChatState`; the five callbacks registered by `sendMessage`
become the cases of `handleStreamEvent`.  A turn's stream is abstracted as
the sequence of callback invocations `streamChat` performs (in dispatch
order), or as a transport-level failure thrown before/while reading. -/

/-- Message roles. -/
inductive Role where
  | user : Role
  | assistant : Role
deriving Repr, DecidableEq

/-- `ChatMessage` from client.ts. -/
structure ChatMessage where
  role : Role
  content : List Char
deriving Repr, DecidableEq

/-- An extracted requirement paired with its compliance assessment. -/
structure RequirementResult where
  requirement : List Char
  compliance_info : List Char
deriving Repr, DecidableEq

/-- `ChatRequest` from client.ts: the POST body of `/api/chat`. -/
structure ChatRequest where
  message : List Char
  chat_history : List ChatMessage
  selected_compliance : List (List Char)
  selected_internal : List (List Char)
deriving Repr, DecidableEq

/-- The state owned by `useChat`: the reactive variables `messages`,
`isStreaming`, `streamingContent`, `status`, `requirements`,
`complianceResults`, and the mutable accumulator `contentRef.current`. -/
structure ChatState where
  messages : List ChatMessage
  isStreaming : Bool
  streamingContent : List Char
  status : List Char
  requirements : List (List Char)
  complianceResults : List RequirementResult
  contentRef : List Char
deriving Repr, DecidableEq

/-- The initial hook state: everything empty, not streaming. -/
def initChatState : ChatState :=
  { messages := [], isStreaming := false, streamingContent := [], status := [],
    requirements := [], complianceResults := [], contentRef := [] }

/-- One callback invocation delivered to the handlers `sendMessage`
registers with `streamChat`, with the payload fields already extracted. -/
inductive StreamEvent where
  | status (msg : List Char) : StreamEvent
  | requirements (reqs : List (List Char)) (results : List RequirementResult) : StreamEvent
  | token (t : List Char) : StreamEvent
  | done : StreamEvent
  | error (e : List Char) : StreamEvent
deriving Repr, DecidableEq

/-- The five callbacks `sendMessage` passes to `streamChat` (useChat.ts
lines 63–89): `onStatus` replaces the status; `onRequirements` replaces the
requirement lists wholesale; `onToken` appends to `contentRef.current` and
mirrors it into `streamingContent`; `onDone` commits an assistant message
exactly when the accumulator is non-empty, then clears streaming state;
`onError` records an error-prefixed status and stops streaming. -/
def handleStreamEvent (st : ChatState) : StreamEvent → ChatState
  | .status m => { st with status := m }
  | .requirements rs res => { st with requirements := rs, complianceResults := res }
  | .token t =>
    let c := st.contentRef ++ t
    { st with contentRef := c, streamingContent := c }
  | .done =>
    let st' :=
      if st.contentRef ≠ [] then
        { st with messages := st.messages ++ [⟨.assistant, st.contentRef⟩] }
      else st
    { st' with isStreaming := false, streamingContent := [], status := [] }
  | .error e =>
    { st with status := "Error: ".toList ++ e, isStreaming := false }

/-- How one call to `sendMessage` observes the stream: either the transport
fails (rejected fetch / non-ok status / missing body, thrown out of
`streamChat` and caught by `sendMessage`), or `streamChat` returns normally
after invoking the given sequence of callbacks. -/
inductive StreamOutcome where
  | transportFail (err : List Char) : StreamOutcome
  | events (evs : List StreamEvent) : StreamOutcome
deriving Repr, DecidableEq

/-- The synchronous prefix of `sendMessage` (useChat.ts lines 40–50):
optimistically append the user message and reset all transient turn state,
entering the streaming state. -/
def sendMessageStart (st : ChatState) (message : List Char) : ChatState :=
  { st with
      messages := st.messages ++ [⟨.user, message⟩],
      isStreaming := true,
      streamingContent := [],
      status := [],
      requirements := [],
      complianceResults := [],
      contentRef := [] }

/-- The request body `sendMessage` passes to `streamChat` (useChat.ts
lines 53–58): `chat_history` is the closure value of `messages`, i.e. the
history as it was when `sendMessage` was invoked, before the optimistic
append. -/
def chatRequestOf (st : ChatState) (message : List Char)
    (selectedCompliance selectedInternal : List (List Char)) : ChatRequest :=
  { message := message, chat_history := st.messages,
    selected_compliance := selectedCompliance,
    selected_internal := selectedInternal }

/-- `sendMessage` (useChat.ts lines 35–97): append the user message, reset
turn state, issue the request, then fold the observed stream over the
callbacks; a transport failure is caught and surfaced as an error-prefixed
status with streaming stopped.  Returns the resulting state and the request
that was issued (exactly one per call — the function performs no
`isStreaming` check). -/
def sendMessage (st : ChatState) (message : List Char)
    (selectedCompliance selectedInternal : List (List Char))
    (outcome : StreamOutcome) : ChatState × ChatRequest :=
  let st1 := sendMessageStart st message
  let req := chatRequestOf st message selectedCompliance selectedInternal
  match outcome with
  | .transportFail err =>
    ({ st1 with status := "Error: ".toList ++ err, isStreaming := false }, req)
  | .events evs => (evs.foldl handleStreamEvent st1, req)

/-- `handleSend` (ChatPanel.tsx lines 33–39): a submit is a no-op unless the
trimmed input is non-empty and no stream is in flight; otherwise it sends
the trimmed input.  Returns the new state and the request issued, if any. -/
def handleSend (st : ChatState) (input : List Char)
    (selectedCompliance selectedInternal : List (List Char))
    (outcome : StreamOutcome) : ChatState × Option ChatRequest :=
  if trimL input = [] || st.isStreaming then (st, none)
  else
    let r := sendMessage st (trimL input) selectedCompliance selectedInternal outcome
    (r.1, some r.2)

/-- `clearChat` (useChat.ts lines 99–105): empty the history, the streaming
content, the status and the requirement lists.  (It touches neither
`contentRef.current` nor `isStreaming`.) -/
def clearChat (st : ChatState) : ChatState :=
  { st with
      messages := [],
      streamingContent := [],
      status := [],
      requirements := [],
      complianceResults := [] }

/-! ## Lemmas

### List helpers -/

theorem getLastD_append_right {α : Type} (l : List α) (y : α) (ys : List α) (d : α) :
    (l ++ y :: ys).getLastD d = (y :: ys).getLastD d := by
  induction l generalizing d with
  | nil => rfl
  | cons x xs ih =>
    rw [List.cons_append, List.getLastD_cons, ih, List.getLastD_cons, List.getLastD_cons]

/-! ### The streaming decoder is a byte automaton -/

theorem foldl_utf8Step_acc (bytes : List Nat) (p : List Char × Utf8State) :
    bytes.foldl utf8Step p =
      (p.1 ++ (bytes.foldl utf8Step ([], p.2)).1, (bytes.foldl utf8Step ([], p.2)).2) := by
  induction bytes generalizing p with
  | nil => simp
  | cons b bs ih =>
    simp only [List.foldl_cons]
    rw [ih (utf8Step p b), ih (utf8Step ([], p.2) b)]
    simp [utf8Step, List.append_assoc]

/-- Decoding the concatenation of two chunks decodes each in turn, threading
the carried decoder state and concatenating the texts. -/
theorem utf8DecodePush_append (s : Utf8State) (a b : List Nat) :
    utf8DecodePush s (a ++ b) =
      ((utf8DecodePush s a).1 ++ (utf8DecodePush (utf8DecodePush s a).2 b).1,
        (utf8DecodePush (utf8DecodePush s a).2 b).2) := by
  unfold utf8DecodePush
  rw [List.foldl_append]
  exact foldl_utf8Step_acc b (a.foldl utf8Step ([], s))

/-! ### Newline splitting -/

theorem splitNl_ne_nil (l : List Char) : splitNl l ≠ [] := by
  match l with
  | [] => simp [splitNl]
  | c :: cs =>
    simp only [splitNl]
    split
    · simp
    · split <;> simp

theorem consHead_ne_nil (pre : List Char) (l : List (List Char)) : consHead pre l ≠ [] := by
  cases l <;> simp [consHead]

theorem splitNl_cons_of_ne (c : Char) (cs : List Char) (h : ¬ c = '\n') :
    splitNl (c :: cs) = consHead [c] (splitNl cs) := by
  simp only [splitNl, if_neg h]
  cases hs : splitNl cs with
  | nil => exact absurd hs (splitNl_ne_nil cs)
  | cons y ys => simp [consHead]

/-- How `splitNl` acts on a concatenation: the final segment of the first
part merges with the first segment of the second part. -/
theorem splitNl_append (a b : List Char) :
    splitNl (a ++ b) =
      (splitNl a).dropLast ++ consHead ((splitNl a).getLastD []) (splitNl b) := by
  induction a with
  | nil =>
    cases hb : splitNl b with
    | nil => exact absurd hb (splitNl_ne_nil b)
    | cons y ys => simp [splitNl, consHead, hb]
  | cons c cs ih =>
    by_cases hc : c = '\n'
    · subst hc
      cases hs : splitNl cs with
      | nil => exact absurd hs (splitNl_ne_nil cs)
      | cons y ys =>
        rw [List.cons_append,
          show splitNl ('\n' :: (cs ++ b)) = [] :: splitNl (cs ++ b) from by
            simp [splitNl],
          show splitNl ('\n' :: cs) = [] :: splitNl cs from by simp [splitNl],
          ih, hs]
        simp [List.getLastD_cons]
    · rw [List.cons_append, splitNl_cons_of_ne c (cs ++ b) hc, ih,
        splitNl_cons_of_ne c cs hc]
      cases hs : splitNl cs with
      | nil => exact absurd hs (splitNl_ne_nil cs)
      | cons y ys =>
        cases ys with
        | nil =>
          cases hb : splitNl b with
          | nil => exact absurd hb (splitNl_ne_nil b)
          | cons z zs => simp [consHead]
        | cons y2 ys2 =>
          simp [consHead, List.getLastD_cons]

/-- A text without a newline splits into itself alone. -/
theorem splitNl_of_no_nl (l : List Char) (h : '\n' ∉ l) : splitNl l = [l] := by
  induction l with
  | nil => rfl
  | cons c cs ih =>
    have hc : ¬ c = '\n' := fun hh => h (hh ▸ List.mem_cons_self c cs)
    have hcs : '\n' ∉ cs := fun hh => h (List.mem_cons_of_mem c hh)
    rw [splitNl_cons_of_ne c cs hc, ih hcs]
    simp [consHead]

/-- The final segment of a split never contains a newline. -/
theorem splitNl_getLastD_no_nl (l : List Char) : '\n' ∉ (splitNl l).getLastD [] := by
  induction l with
  | nil => simp [splitNl]
  | cons c cs ih =>
    by_cases hc : c = '\n'
    · subst hc
      rw [show splitNl ('\n' :: cs) = [] :: splitNl cs from by simp [splitNl]]
      cases hs : splitNl cs with
      | nil => exact absurd hs (splitNl_ne_nil cs)
      | cons y ys =>
        rw [hs] at ih
        rw [List.getLastD_cons]
        cases ys with
        | nil => simpa using ih
        | cons y2 ys2 => simpa [List.getLastD_cons] using ih
    · rw [splitNl_cons_of_ne c cs hc]
      cases hs : splitNl cs with
      | nil => exact absurd hs (splitNl_ne_nil cs)
      | cons y ys =>
        rw [hs] at ih
        cases ys with
        | nil =>
          simp only [consHead, List.getLastD_cons] at ih ⊢
          simp only [List.nil_append, List.getLastD_nil] at ih ⊢
          intro hmem
          rcases List.mem_cons.mp hmem with h1 | h1
          · exact hc h1.symm
          · exact ih h1
        | cons y2 ys2 =>
          simpa [consHead, List.getLastD_cons] using ih

theorem getLastD_append_of_ne_nil {α : Type} (l r : List α) (d : α) (h : r ≠ []) :
    (l ++ r).getLastD d = r.getLastD d := by
  obtain ⟨y, ys, rfl⟩ := List.exists_cons_of_ne_nil h
  exact getLastD_append_right l y ys d

/-! ### Chunk-boundary invariance of the read loop -/

theorem readChunk_buffer_no_nl (st : SseState) (chunk : List Nat) :
    '\n' ∉ (readChunk st chunk).buffer := by
  simp only [readChunk]
  exact splitNl_getLastD_no_nl _

theorem readChunk_nil (st : SseState) (h : '\n' ∉ st.buffer) :
    readChunk st [] = st := by
  simp only [readChunk]
  rw [show utf8DecodePush st.dec [] = ([], st.dec) from rfl]
  rw [show st.buffer ++ ([], st.dec).1 = st.buffer from by simp]
  rw [splitNl_of_no_nl st.buffer h]
  rfl

/-- Processing two consecutive chunks is the same as processing their
concatenation: the read-loop body is compositional in the byte stream. -/
theorem readChunk_append (st : SseState) (a b : List Nat) :
    readChunk st (a ++ b) = readChunk (readChunk st a) b := by
  simp only [readChunk]
  rw [utf8DecodePush_append]
  dsimp only
  set t1 := (utf8DecodePush st.dec a).1 with ht1
  set d1 := (utf8DecodePush st.dec a).2 with hd1
  set t2 := (utf8DecodePush d1 b).1 with ht2
  set L1 := splitNl (st.buffer ++ t1) with hL1
  have hnn : '\n' ∉ L1.getLastD [] := splitNl_getLastD_no_nl _
  have h2 : splitNl (L1.getLastD [] ++ t2) = consHead (L1.getLastD []) (splitNl t2) := by
    rw [splitNl_append, splitNl_of_no_nl _ hnn]
    simp
  have h1 : splitNl (st.buffer ++ (t1 ++ t2)) =
      L1.dropLast ++ consHead (L1.getLastD []) (splitNl t2) := by
    rw [← List.append_assoc, splitNl_append]
  have hC : consHead (L1.getLastD []) (splitNl t2) ≠ [] := consHead_ne_nil _ _
  rw [h1, h2, List.dropLast_append_of_ne_nil _ hC,
    getLastD_append_of_ne_nil _ _ _ hC, List.foldl_append]

/-- Folding the read loop over any list of chunks equals one pass over their
concatenation, provided the carried line buffer holds no newline (an
invariant of the loop). -/
theorem foldl_readChunk_join (chunks : List (List Nat)) (st : SseState)
    (h : '\n' ∉ st.buffer) :
    chunks.foldl readChunk st = readChunk st chunks.flatten := by
  induction chunks generalizing st with
  | nil => simpa using (readChunk_nil st h).symm
  | cons c cs ih =>
    rw [List.foldl_cons, ih (readChunk st c) (readChunk_buffer_no_nl st c),
      ← readChunk_append, List.flatten_cons]

/-! ### Facts about line handling -/

theorem not_event_prefix_of_data (line : List Char)
    (hd : ("data:".toList).isPrefixOf line = true) :
    ("event:".toList).isPrefixOf line = false := by
  obtain ⟨t, rfl⟩ := List.isPrefixOf_iff_prefix.mp hd
  rfl

/-- A `data:` line whose payload fails JSON parsing leaves the loop state
unchanged (the thrown parse error is caught per line). -/
theorem handleLine_malformed (st : LineState) (line : List Char)
    (hd : ("data:".toList).isPrefixOf line = true)
    (hn : jsonParse (trimL (line.drop 5)) = none) :
    handleLine st line = st := by
  unfold handleLine
  rw [not_event_prefix_of_data line hd, hd]
  simp only [Bool.false_eq_true, if_false, if_true]
  split
  · rfl
  · rw [hn]

/-- An unrecognized event name dispatches to no callback. -/
theorem dispatchEvent_nil_of_unrecognized (ev : List Char) (d : Json)
    (h : recognizedEvent ev = false) : dispatchEvent ev d = [] := by
  unfold recognizedEvent at h
  unfold dispatchEvent
  simp only [Bool.or_eq_false_iff, decide_eq_false_iff_not] at h
  obtain ⟨⟨⟨⟨h1, h2⟩, h3⟩, h4⟩, h5⟩ := h
  rw [if_neg h1, if_neg h2, if_neg h3, if_neg h4, if_neg h5]

/-- A recognized event name dispatches to exactly one callback. -/
theorem dispatchEvent_length_of_recognized (ev : List Char) (d : Json)
    (h : recognizedEvent ev = true) : (dispatchEvent ev d).length = 1 := by
  unfold recognizedEvent at h
  unfold dispatchEvent
  simp only [Bool.or_eq_true, decide_eq_true_eq] at h
  rcases h with ((((h | h) | h) | h) | h) <;> subst h
  · rw [if_pos rfl]; rfl
  · rw [if_neg (by decide), if_pos rfl]; rfl
  · rw [if_neg (by decide), if_neg (by decide), if_pos rfl]; rfl
  · rw [if_neg (by decide), if_neg (by decide), if_neg (by decide), if_pos rfl]; rfl
  · rw [if_neg (by decide), if_neg (by decide), if_neg (by decide), if_neg (by decide),
      if_pos rfl]; rfl

/-! ### Facts about the conversation state machine -/

/-- `onStatus` and `onRequirements` callbacks touch neither the history, nor
the accumulator, nor the streaming flag. -/
theorem foldl_status_requirements (evs : List StreamEvent) (st : ChatState)
    (h : ∀ e ∈ evs, (∃ m, e = .status m) ∨ ∃ rs res, e = .requirements rs res) :
    (evs.foldl handleStreamEvent st).messages = st.messages ∧
    (evs.foldl handleStreamEvent st).contentRef = st.contentRef ∧
    (evs.foldl handleStreamEvent st).isStreaming = st.isStreaming := by
  induction evs generalizing st with
  | nil => exact ⟨rfl, rfl, rfl⟩
  | cons e es ih =>
    have hes : ∀ x ∈ es, (∃ m, x = .status m) ∨ ∃ rs res, x = .requirements rs res :=
      fun x hx => h x (List.mem_cons_of_mem e hx)
    rcases h e (List.mem_cons_self e es) with ⟨m, rfl⟩ | ⟨rs, res, rfl⟩ <;>
      exact ih _ hes

/-- `onStatus`, `onRequirements` and `onToken` callbacks never commit a
message to the history. -/
theorem foldl_no_commit (evs : List StreamEvent) (st : ChatState)
    (h : ∀ e ∈ evs, (∃ m, e = .status m) ∨ (∃ rs res, e = .requirements rs res) ∨
      ∃ t, e = .token t) :
    (evs.foldl handleStreamEvent st).messages = st.messages := by
  induction evs generalizing st with
  | nil => rfl
  | cons e es ih =>
    have hes : ∀ x ∈ es, (∃ m, x = .status m) ∨ (∃ rs res, x = .requirements rs res) ∨
        ∃ t, x = .token t :=
      fun x hx => h x (List.mem_cons_of_mem e hx)
    rcases h e (List.mem_cons_self e es) with ⟨m, rfl⟩ | ⟨rs, res, rfl⟩ | ⟨t, rfl⟩ <;>
      exact ih _ hes

/-- A run of `onToken` callbacks appends the concatenation of the fragments
to the accumulator (in arrival order) and mirrors it to the streaming
content. -/
theorem foldl_token_events (ts : List (List Char)) (st : ChatState)
    (h : st.streamingContent = st.contentRef) :
    (ts.map StreamEvent.token).foldl handleStreamEvent st =
      { st with
          contentRef := st.contentRef ++ ts.flatten,
          streamingContent := st.contentRef ++ ts.flatten } := by
  induction ts generalizing st with
  | nil =>
    cases st
    simp_all
  | cons t ts ih =>
    simp only [List.map_cons, List.foldl_cons, handleStreamEvent]
    rw [ih _ rfl]
    simp [List.append_assoc]

/-- The empty payload never parses (used to rule out the empty-payload
branch once a parse succeeded). -/
theorem jsonParse_nil : jsonParse [] = none := rfl

/-- `onDone` with an empty accumulator commits nothing. -/
theorem handleStreamEvent_done_messages (st : ChatState) (h : st.contentRef = []) :
    (handleStreamEvent st StreamEvent.done).messages = st.messages := by
  unfold handleStreamEvent
  dsimp only
  rw [if_neg (by rw [h]; simp)]

/-- `onDone` always leaves the streaming flag cleared. -/
theorem handleStreamEvent_done_isStreaming (st : ChatState) :
    (handleStreamEvent st StreamEvent.done).isStreaming = false := rfl

/-! ## Claims -/

/-- C1: For every well-formed event stream and every way of splitting the
byte sequence into chunks — including splits inside a multi-byte UTF-8
character — running `streamChat`'s read loop over the chunks dispatches the
same sequence of callbacks with the same arguments as running it over the
whole sequence in one chunk.  (Proved for all byte sequences, well-formed or
not, as full state equality would also hold.) -/
theorem streamChat_chunk_invariant (chunks : List (List Nat)) :
    (streamChatRun chunks).out = (streamChatRun [chunks.flatten]).out := by
  unfold streamChatRun
  rw [foldl_readChunk_join chunks initSseState (by simp [initSseState])]
  rfl

/-- C2 (code bug): a stream that ends without any `done` or `error` event
does NOT return the machine to Idle — `sendMessage` has no reset after a
normal `streamChat` return, so `isStreaming` remains `true` (the claim's
other half holds: the partial content is not committed, history keeps only
the user message). -/
theorem stream_end_without_done_stays_streaming :
    (sendMessage initChatState "hi".toList [] []
        (.events [StreamEvent.token "partial".toList])).1.isStreaming = true ∧
    (sendMessage initChatState "hi".toList [] []
        (.events [StreamEvent.token "partial".toList])).1.messages =
      [⟨.user, "hi".toList⟩] := by
  exact ⟨rfl, rfl⟩

/-- C3: For every sequence of token events with fragments `t1..tn`
(accumulating to a non-empty content) followed by a `done` event, the
assistant message committed to history has content exactly
`t1 ++ ... ++ tn`, in arrival order. -/
theorem tokens_concatenated_on_done (st : ChatState) (m : List Char)
    (sc si : List (List Char)) (ts : List (List Char)) (h : ts.flatten ≠ []) :
    (sendMessage st m sc si
        (.events (ts.map StreamEvent.token ++ [StreamEvent.done]))).1.messages =
      st.messages ++ [⟨.user, m⟩, ⟨.assistant, ts.flatten⟩] := by
  unfold sendMessage
  dsimp only
  rw [List.foldl_append, foldl_token_events ts (sendMessageStart st m) rfl]
  simp [handleStreamEvent, sendMessageStart, h]

/-- Witness for C3 at a concrete two-token turn. -/
theorem tokens_concatenated_on_done_witness :
    (["Under ".toList, "GDPR...".toList] : List (List Char)).flatten ≠ [] ∧
    (sendMessage initChatState "q".toList [] []
        (.events ((["Under ".toList, "GDPR...".toList].map StreamEvent.token) ++
          [StreamEvent.done]))).1.messages =
      [⟨.user, "q".toList⟩, ⟨.assistant, "Under GDPR...".toList⟩] := by
  refine ⟨by decide, ?_⟩
  rw [tokens_concatenated_on_done initChatState "q".toList [] []
    ["Under ".toList, "GDPR...".toList] (by decide)]
  rfl

/-- C4 counterexample: a direct `sendMessage` call while `isStreaming` is
`true` is NOT a no-op — `sendMessage` performs no `isStreaming` check, so
it changes the history (and issues a request). -/
theorem send_while_streaming_changes_history :
    ({ initChatState with isStreaming := true } : ChatState).isStreaming = true ∧
    (sendMessage { initChatState with isStreaming := true } "hi".toList [] []
        (.events [])).1.messages ≠
      ({ initChatState with isStreaming := true } : ChatState).messages := by
  exact ⟨rfl, by decide⟩

/-- C4 (amended): a submit through the chat panel (`handleSend`) while
`isStreaming` is `true` is rejected as a no-op — state unchanged, no request
issued; the guard lives in `handleSend`, not in `sendMessage`. -/
theorem submit_while_streaming_noop (st : ChatState) (input : List Char)
    (sc si : List (List Char)) (o : StreamOutcome) (h : st.isStreaming = true) :
    handleSend st input sc si o = (st, none) := by
  unfold handleSend
  rw [h]
  simp

/-- Witness for the amended C4 at a concrete streaming state. -/
theorem submit_while_streaming_noop_witness :
    ({ initChatState with isStreaming := true } : ChatState).isStreaming = true ∧
    handleSend { initChatState with isStreaming := true } "hi".toList [] []
      (.events []) = ({ initChatState with isStreaming := true }, none) :=
  ⟨rfl, submit_while_streaming_noop { initChatState with isStreaming := true }
    "hi".toList [] [] (.events []) rfl⟩

/-- C5: a turn whose stream delivers only `status`/`requirements` events and
then `done` (zero tokens, empty accumulator) commits no assistant message:
history is the prior history plus exactly the user message, and the machine
returns to Idle. -/
theorem done_with_empty_accumulator (st : ChatState) (m : List Char)
    (sc si : List (List Char)) (pre : List StreamEvent)
    (h : ∀ e ∈ pre, (∃ s, e = .status s) ∨ ∃ rs res, e = .requirements rs res) :
    (sendMessage st m sc si (.events (pre ++ [StreamEvent.done]))).1.messages =
      st.messages ++ [⟨.user, m⟩] ∧
    (sendMessage st m sc si (.events (pre ++ [StreamEvent.done]))).1.messages.length =
      st.messages.length + 1 ∧
    (sendMessage st m sc si (.events (pre ++ [StreamEvent.done]))).1.isStreaming = false := by
  unfold sendMessage
  dsimp only
  rw [List.foldl_append]
  obtain ⟨h1, h2, h3⟩ := foldl_status_requirements pre (sendMessageStart st m) h
  simp only [List.foldl_cons, List.foldl_nil]
  have hc : (pre.foldl handleStreamEvent (sendMessageStart st m)).contentRef = [] := by
    rw [h2]; rfl
  refine ⟨?_, ?_, handleStreamEvent_done_isStreaming _⟩
  · rw [handleStreamEvent_done_messages _ hc, h1]
    rfl
  · rw [handleStreamEvent_done_messages _ hc, h1]
    simp [sendMessageStart]

/-- Witness for C5: one status event, then `done`. -/
theorem done_with_empty_accumulator_witness :
    (∀ e ∈ [StreamEvent.status "Retrieving...".toList],
      (∃ s, e = .status s) ∨ ∃ rs res, e = .requirements rs res) ∧
    (sendMessage initChatState "q".toList [] []
        (.events ([StreamEvent.status "Retrieving...".toList] ++
          [StreamEvent.done]))).1.messages = [⟨.user, "q".toList⟩] := by
  refine ⟨?_, ?_⟩
  · intro e he
    simp only [List.mem_singleton] at he
    exact Or.inl ⟨"Retrieving...".toList, he⟩
  · rw [(done_with_empty_accumulator initChatState "q".toList [] []
      [StreamEvent.status "Retrieving...".toList]
      (fun e he => Or.inl ⟨"Retrieving...".toList, by simpa using he⟩)).1]
    rfl

/-- C6: a turn ended by an `error` event — after any mixture of `status`,
`requirements` and `token` events — commits no assistant message, sets an
error-prefixed status containing the error text, and stops streaming; the
partially accumulated content never reaches the history. -/
theorem error_event_discards_turn (st : ChatState) (m e : List Char)
    (sc si : List (List Char)) (pre : List StreamEvent)
    (h : ∀ ev ∈ pre, (∃ s, ev = .status s) ∨ (∃ rs res, ev = .requirements rs res) ∨
      ∃ t, ev = .token t) :
    (sendMessage st m sc si (.events (pre ++ [StreamEvent.error e]))).1.messages =
      st.messages ++ [⟨.user, m⟩] ∧
    (sendMessage st m sc si (.events (pre ++ [StreamEvent.error e]))).1.status =
      "Error: ".toList ++ e ∧
    (sendMessage st m sc si (.events (pre ++ [StreamEvent.error e]))).1.isStreaming = false := by
  unfold sendMessage
  dsimp only
  rw [List.foldl_append]
  have hm := foldl_no_commit pre (sendMessageStart st m) h
  simp only [List.foldl_cons, List.foldl_nil]
  refine ⟨?_, by simp [handleStreamEvent], by simp [handleStreamEvent]⟩
  simpa [handleStreamEvent, sendMessageStart] using hm

/-- Witness for C6: a status and a token event, then `error`. -/
theorem error_event_discards_turn_witness :
    (∀ ev ∈ [StreamEvent.status "Working".toList, StreamEvent.token "par".toList],
      (∃ s, ev = .status s) ∨ (∃ rs res, ev = .requirements rs res) ∨
        ∃ t, ev = .token t) ∧
    (sendMessage initChatState "q".toList [] []
        (.events ([StreamEvent.status "Working".toList,
          StreamEvent.token "par".toList] ++
          [StreamEvent.error "model timeout".toList]))).1.messages =
      [⟨.user, "q".toList⟩] := by
  have hh : ∀ ev ∈ [StreamEvent.status "Working".toList, StreamEvent.token "par".toList],
      (∃ s, ev = .status s) ∨ (∃ rs res, ev = .requirements rs res) ∨
        ∃ t, ev = .token t := by
    intro ev hev
    rcases List.mem_cons.mp hev with h1 | h1
    · exact Or.inl ⟨"Working".toList, h1⟩
    · simp only [List.mem_singleton] at h1
      exact Or.inr (Or.inr ⟨"par".toList, h1⟩)
  refine ⟨hh, ?_⟩
  rw [(error_event_discards_turn initChatState "q".toList "model timeout".toList [] []
    [StreamEvent.status "Working".toList, StreamEvent.token "par".toList] hh).1]
  rfl

/-- C7 counterexample: `clearChat` does not reset the token accumulator
`contentRef.current` — with a non-empty accumulator, it is still non-empty
after `clearChat`, so not every transient turn field is reset. -/
theorem clearChat_keeps_accumulator :
    (clearChat { initChatState with contentRef := "a".toList }).contentRef ≠ [] := by
  decide

/-- C7 (amended): in every prior state, `clearChat` empties the history, the
streaming content, the status, the requirements and the compliance results;
it leaves the accumulator ref (and the streaming flag) untouched — the
accumulator is reset only at the start of the next send. -/
theorem clearChat_resets_reactive_fields (st : ChatState) :
    (clearChat st).messages = [] ∧ (clearChat st).streamingContent = [] ∧
    (clearChat st).status = [] ∧ (clearChat st).requirements = [] ∧
    (clearChat st).complianceResults = [] ∧
    (clearChat st).contentRef = st.contentRef ∧
    (clearChat st).isStreaming = st.isStreaming :=
  ⟨rfl, rfl, rfl, rfl, rfl, rfl, rfl⟩

/-- C8: a `data:` line whose payload fails JSON parsing is caught per-line:
the read loop is not aborted (the model's loop is total) and the dispatched
callback trace over the whole line sequence is exactly the trace with the
malformed line removed — every event before and after it is dispatched as
usual. -/
theorem malformed_data_line_skipped (ev : List Char) (out : List SseCallback)
    (pre post : List (List Char)) (bad : List Char)
    (hd : ("data:".toList).isPrefixOf bad = true)
    (hn : jsonParse (trimL (bad.drop 5)) = none) :
    (pre ++ bad :: post).foldl handleLine ⟨ev, out⟩ =
      (pre ++ post).foldl handleLine ⟨ev, out⟩ := by
  rw [List.foldl_append, List.foldl_append, List.foldl_cons,
    handleLine_malformed _ bad hd hn]

/-- Witness for C8: a malformed payload between two well-formed lines. -/
theorem malformed_data_line_skipped_witness :
    ("data:".toList).isPrefixOf "data: oops".toList = true ∧
    jsonParse (trimL ("data: oops".toList.drop 5)) = none ∧
    (["event: token".toList] ++ "data: oops".toList :: ["data: \"hi\"".toList]).foldl
        handleLine ⟨[], []⟩ =
      (["event: token".toList] ++ ["data: \"hi\"".toList]).foldl handleLine ⟨[], []⟩ :=
  ⟨rfl, rfl, malformed_data_line_skipped [] [] ["event: token".toList]
    ["data: \"hi\"".toList] "data: oops".toList rfl rfl⟩

/-- C9: for a `data:` line — an empty trimmed payload dispatches nothing; a
payload that parses under an unrecognized event name is dropped (state
unchanged, parsing continues); under a recognized event name exactly one of
the five callbacks is dispatched. -/
theorem data_line_dispatch (st : LineState) (line : List Char)
    (hd : ("data:".toList).isPrefixOf line = true) :
    (trimL (line.drop 5) = [] → handleLine st line = st) ∧
    (∀ d, jsonParse (trimL (line.drop 5)) = some d →
      (recognizedEvent st.currentEvent = false → handleLine st line = st) ∧
      (recognizedEvent st.currentEvent = true →
        handleLine st line =
          ⟨st.currentEvent, st.out ++ dispatchEvent st.currentEvent d⟩ ∧
        (dispatchEvent st.currentEvent d).length = 1)) := by
  have hne := not_event_prefix_of_data line hd
  refine ⟨?_, ?_⟩
  · intro hempty
    unfold handleLine
    rw [hne, hd]
    simp [hempty]
  · intro d hparse
    have hnonempty : ¬ trimL (line.drop 5) = [] := by
      intro hcon
      rw [hcon, jsonParse_nil] at hparse
      exact Option.noConfusion hparse
    refine ⟨?_, ?_⟩
    · intro hun
      unfold handleLine
      rw [hne, hd]
      simp only [Bool.false_eq_true, if_false, if_true]
      rw [if_neg hnonempty, hparse]
      dsimp only
      rw [dispatchEvent_nil_of_unrecognized _ _ hun]
      simp
    · intro hrec
      refine ⟨?_, dispatchEvent_length_of_recognized _ _ hrec⟩
      unfold handleLine
      rw [hne, hd]
      simp only [Bool.false_eq_true, if_false, if_true]
      rw [if_neg hnonempty, hparse]

/-- Witness for C9 at the line `data: null` with the recognized event name
`token` in force. -/
theorem data_line_dispatch_witness :
    ("data:".toList).isPrefixOf "data: null".toList = true ∧
    ((trimL ("data: null".toList.drop 5) = [] →
        handleLine ⟨"token".toList, []⟩ "data: null".toList = ⟨"token".toList, []⟩) ∧
      (∀ d, jsonParse (trimL ("data: null".toList.drop 5)) = some d →
        (recognizedEvent "token".toList = false →
          handleLine ⟨"token".toList, []⟩ "data: null".toList = ⟨"token".toList, []⟩) ∧
        (recognizedEvent "token".toList = true →
          handleLine ⟨"token".toList, []⟩ "data: null".toList =
            ⟨"token".toList, [] ++ dispatchEvent "token".toList d⟩ ∧
          (dispatchEvent "token".toList d).length = 1))) :=
  ⟨rfl, data_line_dispatch ⟨"token".toList, []⟩ "data: null".toList rfl⟩

/-- C10: the request body of every send carries `chat_history` equal to the
history as it was before this turn's user message was appended; the new user
message reaches only the `message` field (the optimistic append places it at
the end of the post-send history, not in the request's history). -/
theorem request_history_is_pre_send (st : ChatState) (m : List Char)
    (sc si : List (List Char)) (o : StreamOutcome) :
    (sendMessage st m sc si o).2.chat_history = st.messages ∧
    (sendMessage st m sc si o).2.message = m ∧
    (sendMessageStart st m).messages = st.messages ++ [⟨.user, m⟩] := by
  cases o <;> exact ⟨rfl, rfl, rfl⟩

end ComplianceAnalyzer
